import Mathlib

set_option synthInstance.maxSize 512

/-!
Verification development for the `labordata/employer-links` gazetteer
(`src/establishment/__init__.py`), shallowly embedded in Lean.

Record ids are modelled as `Int` (the `DataInt` record universe of dedupe),
field data as association lists from field name to value-or-None, scores as
rationals (they are only carried through, never computed with), and the three
persistent tables (`indexed_records`, the canonical data table, the entity
map) as lists of rows.  The external fingerprinter is a parameter, exactly as
it is an external collaborator in the source.  Where Python raises
(`KeyError` on a missing dict key, `ValueError` from `int`), the embedded
function returns `none`.
-/

namespace EmployerLinks

/-- Field data of one record: a Python dict from field name to value-or-None
(`preProcess` stores `None` for empty values). -/
abbrev Fields := List (String × Option String)

/-- A batch of records: Python dict from record id to field dict
(`DataInt` in the source). -/
abbrev DataMap := List (Int × Fields)

/-- One `(block_key, record_id)` row, as produced by the fingerprinter and as
stored in `blocking_map` and `indexed_records`. -/
abbrev BlockEntry := String × Int

/-- First-match association lookup: Python `d[k]` on a dict (dict keys are
unique, so first match is the match); `none` is a `KeyError`. -/
def assocFind {α β : Type} [DecidableEq α] : List (α × β) → α → Option β
  | [], _ => none
  | kv :: rest, k => if kv.1 = k then some kv.2 else assocFind rest k

/-! ## Block Generator (`EstablishmentGazetteer.blocks`, lines 62-157) -/

/-- One row of the blocking join: `(a.record_id, b.record_id, dict of the
canonical record's primary fields)`. -/
abbrev JoinRow := Int × Int × Fields

/-- The FROM clause of the query in `blocks`:
`blocking_map a INNER JOIN indexed_records b USING (block_key)
INNER JOIN data_table dt ON b.record_id = id`, selecting
`a.record_id, b.record_id` and the primary field columns of `dt`. -/
def joinRows (bmap : List BlockEntry) (idx : List BlockEntry)
    (dt : DataMap) : List JoinRow :=
  bmap.flatMap fun ka =>
    idx.flatMap fun kb =>
      if ka.1 = kb.1 then
        dt.filterMap fun row =>
          if row.1 = kb.2 then some (ka.2, kb.2, row.2) else none
      else []

/-- `SELECT DISTINCT ... ORDER BY a.record_id`: duplicate result rows are
collapsed, then the rows are ordered by the messy record id.  SQLite leaves
the relative order of rows with equal `a.record_id` unspecified; the model
fixes one such order (a stable sort of the deduplicated rows). -/
def pairsQuery (bmap : List BlockEntry) (idx : List BlockEntry)
    (dt : DataMap) : List JoinRow :=
  List.insertionSort (fun r s : JoinRow => r.1 ≤ s.1) (joinRows bmap idx dt).dedup

/-- `itertools.groupby(pairs, key = record_id_a)`: split the row stream into
maximal runs of contiguous rows sharing the messy record id. -/
def groupRows : List JoinRow → List (List JoinRow)
  | [] => []
  | r :: rs =>
    match groupRows rs with
    | (s :: g) :: gs =>
      if r.1 = s.1 then (r :: s :: g) :: gs else [r] :: (s :: g) :: gs
    | gs => [r] :: gs

/-- One element of a yielded block:
`((a_record_id, a_record), (row["record_id_b"], dict(row)))`.  The Python
`dict(row)` also carries the two id columns next to the field columns; the
model keeps the id in the first component and the field columns in the
second. -/
abbrev BlockPair := (Int × Fields) × (Int × Fields)

/-- Decorate one grouped run with the messy record's own data
(`data[a_record_id]`); `none` is the `KeyError` raised when the fingerprinter
emitted a record id that is not a key of `data`. -/
def decorateGroup (data : DataMap) : List JoinRow → Option (List BlockPair)
  | [] => some []
  | r :: rs =>
    match assocFind data r.1, decorateGroup data rs with
    | some af, some b => some (((r.1, af), (r.2.1, r.2.2)) :: b)
    | _, _ => none

/-- Decorate every grouped run. -/
def decorateGroups (data : DataMap) :
    List (List JoinRow) → Option (List (List BlockPair))
  | [] => some []
  | g :: gs =>
    match decorateGroup data g, decorateGroups data gs with
    | some b, some bs => some (b :: bs)
    | _, _ => none

/-- `EstablishmentGazetteer.blocks`, parameterized by the external
fingerprinter `fp` (`self.fingerprinter(data.items())`): stage the messy
fingerprints, run the distinct blocking join ordered by messy id, group
contiguous rows by messy id, and pair each row with the messy record's data. -/
def blocks (fp : DataMap → List BlockEntry) (idx : List BlockEntry)
    (dt : DataMap) (data : DataMap) : Option (List (List BlockPair)) :=
  decorateGroups data (groupRows (pairsQuery (fp data) idx dt))

/-- The (messy_id, canonical_id) pair of one yielded block element. -/
def pairIds (pr : BlockPair) : Int × Int := (pr.1.1, pr.2.1)

/-! ## Result Hydrator (`EstablishmentGazetteer._hydrate_matches`,
lines 211-261) -/

/-- A score from the external scorer, carried through untouched. -/
abbrev Score := ℚ

/-- One scored pair of a raw search result: `((messy_id, canonical_id),
score)`. -/
abbrev ScoredPair := (Int × Int) × Score

/-- One raw result group (the numpy record of one messy record, as produced
by `many_to_n`): its scored pairs in ranked order. -/
abbrev ResultGroup := List ScoredPair

/-- A hydrated match `(entity_id, canonical_id, canonical, score)` appended to
`prepared_result`; `canonical` is the canonical row's dict after
`pop("entity_id")`, which still carries its id column, modelled as
`(id, fields)`. -/
structure MatchRow where
  entityId : Int
  canonicalId : Int
  canonical : Int × Fields
  score : Score
  deriving DecidableEq

/-- `result["pairs"][:, 1]`: the canonical ids of one raw result group. -/
def canonicalIds (g : ResultGroup) : List Int := g.map fun p => p.1.2

/-- Rows of the per-result entity query
`SELECT entity_id, dt.* FROM entity_map INNER JOIN data_table dt USING (id)
WHERE id IN (canonical ids)`; each row is `(id, entity_id, fields)`. -/
def entityRelations (em : List (Int × Int)) (dt : DataMap)
    (ids : List Int) : List (Int × Int × Fields) :=
  em.flatMap fun e =>
    if e.1 ∈ ids then
      dt.filterMap fun row =>
        if row.1 = e.1 then some (e.1, e.2, row.2) else none
    else []

/-- `entity_lookup = row dict keyed by row id`: a Python dict comprehension,
so a later row overwrites an earlier one with the same id.  The value is
`(entity_id, canonical dict sans entity_id)`. -/
def entityLookup (em : List (Int × Int)) (dt : DataMap) (ids : List Int)
    (b : Int) : Option (Int × (Int × Fields)) :=
  (((entityRelations em dt ids).filter fun r => r.1 = b).getLast?).map
    fun r => (r.2.1, (r.1, r.2.2))

/-- The inner loop of `_hydrate_matches` over one raw result group
(`for (a, b), score in result:`).  State: `popped` holds the canonical ids
whose stored dict already had `entity_id` popped (the dicts are shared, so a
second `canonical.pop("entity_id")` on the same id raises `KeyError`),
`seen` is `seen_entities`, `acc` is `prepared_result`, and `a` is the loop
variable `a` (`none` models the Python `None` it is initialized to).
`none` is a raised `KeyError` (missing entity mapping, or a repeated
canonical id). -/
def processPairs (lookup : Int → Option (Int × (Int × Fields))) :
    ResultGroup → List Int → List Int → List MatchRow → Option Int →
    Option (Option Int × List MatchRow)
  | [], _, _, acc, a => some (a, acc)
  | p :: rest, popped, seen, acc, _ =>
    match lookup p.1.2 with
    | none => none
    | some (eid, canonical) =>
      if p.1.2 ∈ popped then none
      else
        processPairs lookup rest (popped ++ [p.1.2])
          (if eid ∈ seen then seen else seen ++ [eid])
          (if eid ∈ seen then acc else acc ++ [⟨eid, p.1.2, canonical, p.2⟩])
          (some p.1.1)

/-- One element yielded by `_hydrate_matches`.  `matched` models the 2-tuple
`((a, data[a]), tuple(prepared_result))` yielded for a processed raw result;
`passthrough` models the flat 3-tuple `(k, data[k], ())` yielded for a messy
id with no raw result. -/
inductive OutElem where
  | matched (a : Int) (fields : Fields) (ms : List MatchRow)
  | passthrough (k : Int) (fields : Fields)
  deriving DecidableEq

/-- The Python tuple length of a yielded element:
`len(((a, data[a]), matches)) = 2` and `len((k, data[k], ())) = 3`. -/
def tupleArity : OutElem → Nat
  | .matched _ _ _ => 2
  | .passthrough _ _ => 3

/-- The messy id carried by a yielded element. -/
def outId : OutElem → Int
  | .matched a _ _ => a
  | .passthrough k _ => k

/-- Process one raw result group: issue the entity query for its canonical
ids, run the inner loop, then build `((a, data[a]), tuple(prepared_result))`.
`none` is a `KeyError`: from the inner loop, from `data[None]` when the group
had no pairs (`a` was never assigned), or from `data[a]` when `a` is not a
key of the batch. -/
def processGroup (em : List (Int × Int)) (dt : DataMap) (data : DataMap)
    (g : ResultGroup) : Option OutElem :=
  match processPairs (entityLookup em dt (canonicalIds g)) g [] [] [] none with
  | none => none
  | some (none, _) => none
  | some (some aid, ms) =>
    match assocFind data aid with
    | none => none
    | some f => some (.matched aid f ms)

/-- The loop over `results` in `_hydrate_matches`.  Returns the trace of
canonical-id lists handed to the per-group entity query (one query per
processed group) and, unless a `KeyError` aborts the generator, the yielded
matched elements together with the final `seen_messy` set (modelled as a
duplicate-free list in insertion order). -/
def hydrateGo (em : List (Int × Int)) (dt : DataMap) (data : DataMap) :
    List ResultGroup → List Int →
    List (List Int) × Option (List OutElem × List Int)
  | [], seen => ([], some ([], seen))
  | g :: rest, seen =>
    match processGroup em dt data g with
    | none => ([canonicalIds g], none)
    | some e =>
      let next := hydrateGo em dt data rest
        (if outId e ∈ seen then seen else seen ++ [outId e])
      (canonicalIds g :: next.1, next.2.map fun pr => (e :: pr.1, pr.2))

/-- The messy id a raw result group hands to the final `yield`: the first
component of its last pair (`a` after the loop). -/
def groupMessyId (g : ResultGroup) : Option Int :=
  g.getLast?.map fun p => p.1.1

/-- `EstablishmentGazetteer._hydrate_matches`: the matched elements in result
order, then one `(k, data[k], ())` passthrough for every key of `data` not in
`seen_messy`.  Python iterates the set difference `data.keys() - seen_messy`
in unspecified order; the model iterates it in batch order.  The first
component is the trace of entity queries the call issued. -/
def hydrateMatches (em : List (Int × Int)) (dt : DataMap) (data : DataMap)
    (results : List ResultGroup) : List (List Int) × Option (List OutElem) :=
  let run := hydrateGo em dt data results []
  (run.1, run.2.map fun pr =>
    pr.1 ++ (data.filter fun kv => kv.1 ∉ pr.2).map
      fun kv => .passthrough kv.1 kv.2)

/-- The spec's reading of the §4.4 bulk-lookup sentence, taken literally: one
`_hydrate_matches` call issues exactly one entity query, covering the set of
all canonical ids appearing across all raw results of the call. -/
def singleBulkLookup (em : List (Int × Int)) (dt : DataMap) (data : DataMap)
    (results : List ResultGroup) : Prop :=
  (hydrateMatches em dt data results).1 = [results.flatMap canonicalIds]

/-- Modelled from the spec (§4.4): resolve each scored pair of a ranked raw
result list through the entity lookup, in ranked order, without dropping
anything yet. -/
def resolvePairs (lookup : Int → Option (Int × (Int × Fields))) :
    ResultGroup → Option (List MatchRow)
  | [] => some []
  | p :: rest =>
    match lookup p.1.2, resolvePairs lookup rest with
    | some (eid, canonical), some ms => some (⟨eid, p.1.2, canonical, p.2⟩ :: ms)
    | _, _ => none

/-- Modelled from the spec (§3, §4.4): walk a resolved ranked match list in
order and keep the first occurrence of each entity id, silently dropping
subsequent occurrences of an already-seen entity id. -/
def keepFirstPerEntity : List MatchRow → List Int → List MatchRow
  | [], _ => []
  | m :: ms, seen =>
    if m.entityId ∈ seen then keepFirstPerEntity ms seen
    else m :: keepFirstPerEntity ms (seen ++ [m.entityId])

/-! ## Candidate Store / Indexer (`block_index`, `reblock_canonical`,
lines 266-344) -/

/-- `REPLACE INTO indexed_records` under the `UNIQUE (block_key, record_id)`
constraint: a conflicting row (the same pair) is deleted and the new row is
appended. -/
def replaceInto (s : List BlockEntry) (p : BlockEntry) : List BlockEntry :=
  (if p ∈ s then s.erase p else s) ++ [p]

/-- `executemany("REPLACE INTO indexed_records VALUES (?, ?)", ...)` over the
fingerprinter's output rows. -/
def insertAll (s : List BlockEntry) (ps : List BlockEntry) : List BlockEntry :=
  ps.foldl replaceInto s

/-- Contents of `indexed_records` after `block_index(data, rebuild)`, whose
row stream `ps` is `self.fingerprinter(data, target=True)`.  `rebuild = true`
drops the table first, so the insert starts from an empty table;
`rebuild = false` keeps the existing contents (`CREATE TABLE IF NOT EXISTS`
creates an empty one when none exists, hence `getD []`). -/
def blockIndex (store : Option (List BlockEntry)) (rebuild : Bool)
    (ps : List BlockEntry) : List BlockEntry :=
  insertAll (if rebuild then [] else store.getD []) ps

/-- What a concurrent reader of the database sees of `indexed_records`:
`none` means the table does not exist. -/
abbrev IndexTable := Option (List BlockEntry)

/-- The reader-visible states of `indexed_records` over the statement sequence
of `block_index(..., rebuild=True)`, one entry per executed statement.
Python's `sqlite3` module (default `isolation_level`) only opens the implicit
transaction when an INSERT/UPDATE/DELETE/REPLACE statement executes; DDL
statements run in autocommit mode when no transaction is open.  So the
`DROP TABLE IF EXISTS` and the `CREATE TABLE IF NOT EXISTS` each commit
immediately, and only the span from the `REPLACE INTO` rows to `con.commit()`
is one transaction. -/
def blockIndexVisibleTrace (start : IndexTable) (ps : List BlockEntry) :
    List IndexTable :=
  [ start,                  -- before the call
    none,                   -- DROP TABLE IF EXISTS indexed_records (autocommitted)
    none,                   -- pragma journal_mode=wal
    some [],                -- CREATE TABLE IF NOT EXISTS (autocommitted)
    some [],                -- executemany REPLACE INTO: opens the transaction
    some [],                -- CREATE UNIQUE INDEX, inside the open transaction
    some [],                -- ANALYZE, inside the open transaction
    some (insertAll [] ps) ]  -- con.commit()

/-- The resource events of the generator body of `blocks`, in source order. -/
inductive BlocksEvent where
  | connect                 -- sqlite3.connect(self.db, ...)
  | beginTxn                -- con.execute("BEGIN")
  | createTempBlockingMap   -- CREATE TEMPORARY TABLE blocking_map
  | insertFingerprints      -- executemany INSERT INTO blocking_map
  | executePairsQuery       -- con.execute(SELECT DISTINCT ...)
  | yieldGroup (i : Nat)    -- yield of the i-th pair block
  | closeCursor             -- pairs.close()
  | rollbackTxn             -- con.execute("ROLLBACK")
  | closeConnection         -- con.close()
  deriving DecidableEq

/-- The event trace of a `blocks` call whose join produced `n` groups and
whose caller consumes the generator to exhaustion: the cleanup statements
after the loop run. -/
def blocksEventsRun (n : Nat) : List BlocksEvent :=
  [.connect, .beginTxn, .createTempBlockingMap, .insertFingerprints,
    .executePairsQuery]
    ++ (List.range n).map BlocksEvent.yieldGroup
    ++ [.closeCursor, .rollbackTxn, .closeConnection]

/-- The event trace when the caller abandons iteration after consuming
`j + 1` groups: the generator is suspended at that yield, `GeneratorExit` is
thrown there and propagates out of the `for` loop, and — there being no
`try`/`finally` in the body — the statements after the loop never execute. -/
def blocksEventsAbandoned (j : Nat) : List BlocksEvent :=
  [.connect, .beginTxn, .createTempBlockingMap, .insertFingerprints,
    .executePairsQuery]
    ++ (List.range (j + 1)).map BlocksEvent.yieldGroup

/-! ## CSV reading (`preProcess`, `readData`, lines 347-376) -/

/-- Python `column.lower()`, char by char (the model of `str.lower`). -/
def strLower (s : String) : String := ⟨s.data.map Char.toLower⟩

/-- `preProcess`: lower-case the value; an empty value becomes `None`. -/
def preProcess (column : String) : Option String :=
  let column := strLower column
  if column = "" then none else some column

/-- Digit accumulator for `pyInt`. -/
def digitsValGo : List Char → Nat → Option Nat
  | [], acc => some acc
  | c :: rest, acc =>
    if c.isDigit then digitsValGo rest (acc * 10 + (c.toNat - 48)) else none

/-- Python `int(s)` on a decimal string: an optional sign followed by at
least one digit; anything else raises `ValueError` (`none`). -/
def pyInt (s : String) : Option Int :=
  match s.data with
  | [] => none
  | '-' :: rest =>
    if rest = [] then none else (digitsValGo rest 0).map fun n => -(n : Int)
  | '+' :: rest =>
    if rest = [] then none else (digitsValGo rest 0).map fun n => (n : Int)
  | l => (digitsValGo l 0).map fun n => (n : Int)

/-- One CSV row from `csv.DictReader`: field name to raw string value. -/
abbrev CsvRow := List (String × String)

/-- `[(k, preProcess(v)) for (k, v) in row.items()]`. -/
def cleanRow (row : CsvRow) : Fields := row.map fun kv => (kv.1, preProcess kv.2)

/-- Python `data_d[row_id] = clean_row` on a dict: overwrite in place when
the key exists (keeping its insertion position), append otherwise. -/
def dictInsert (d : DataMap) (k : Int) (v : Fields) : DataMap :=
  if d.any fun kv => kv.1 = k then
    d.map fun kv => if kv.1 = k then (k, v) else kv
  else d ++ [(k, v)]

/-- `int(row[identifier])`: the parsed id of one CSV row; `none` is the
`KeyError`/`ValueError` Python would raise. -/
def rowIdOf (identifier : String) (row : CsvRow) : Option Int :=
  (assocFind row identifier).bind pyInt

/-- The cleaned `(id, fields)` entry one CSV row contributes. -/
def processedRow (identifier : String) (row : CsvRow) : Option (Int × Fields) :=
  (rowIdOf identifier row).map fun i => (i, cleanRow row)

/-- The loop of `readData`: accumulate cleaned rows into `data_d` keyed by
`int(row[identifier])` and yield a chunk whenever `len(data_d) == chunk_size`.
The loop ends without a final yield, so a non-full trailing `data_d` is
silently dropped. -/
def readDataGo (identifier : String) (chunkSize : Nat) :
    List CsvRow → DataMap → Option (List DataMap)
  | [], _ => some []
  | row :: rest, dataD =>
    match rowIdOf identifier row with
    | none => none
    | some rowId =>
      let dataD := dictInsert dataD rowId (cleanRow row)
      if dataD.length = chunkSize then
        (readDataGo identifier chunkSize rest []).map fun cs => dataD :: cs
      else
        readDataGo identifier chunkSize rest dataD

/-- `readData(f, identifier, chunk_size=5)` over the parsed CSV rows. -/
def readData (rows : List CsvRow) (identifier : String)
    (chunkSize : Nat := 5) : Option (List DataMap) :=
  readDataGo identifier chunkSize rows []

/-! ## Concrete example data, used by the witnesses (the §8 scenario of the
spec: two canonical records of one entity sharing a signature with one messy
record, plus a messy record with no candidates). -/

/-- Canonical record 101. -/
def exFieldsA : Fields := [("name", some "acme inc")]

/-- Canonical record 102. -/
def exFieldsB : Fields := [("name", some "acme incorporated")]

/-- The canonical data table. -/
def exDataTable : DataMap := [(101, exFieldsA), (102, exFieldsB)]

/-- The entity map: both canonical records belong to entity 1. -/
def exEntityMap : List (Int × Int) := [(101, 1), (102, 1)]

/-- The messy batch: record 1 matches, record 2 has no candidates. -/
def exMessy : DataMap :=
  [(1, [("name", some "acme")]), (2, [("name", some "xyz")])]

/-- The persistent index: record 101 carries two signatures. -/
def exIdx : List BlockEntry := [("acme", 101), ("acm", 101), ("acme", 102)]

/-- A fingerprinter giving messy record 1 the two signatures it shares with
canonical record 101 (and one with 102). -/
def exFp (_ : DataMap) : List BlockEntry := [("acme", 1), ("acm", 1)]

/-- One raw result group for messy record 1: both canonical records, ranked. -/
def exGroup : ResultGroup := [((1, 101), 9), ((1, 102), 8)]

/-- A raw result list with one group per messy record. -/
def exResultsTwo : List ResultGroup := [[((1, 101), 9)], [((2, 102), 8)]]

/-! ## Helper lemmas -/

theorem assocFind_mem {α β : Type} [DecidableEq α] (l : List (α × β)) (k : α)
    (v : β) (h : assocFind l k = some v) : (k, v) ∈ l := by
  induction l with
  | nil => simp [assocFind] at h
  | cons kv rest ih =>
    rw [assocFind] at h
    by_cases hk : kv.1 = k
    · simp [hk] at h
      exact List.mem_cons.mpr (Or.inl (by rw [← hk, ← h]))
    · simp [hk] at h
      exact List.mem_cons.mpr (Or.inr (ih h))

theorem assoc_key_unique {α β : Type} (l : List (α × β))
    (h : (l.map Prod.fst).Nodup) (p q : α × β) (hp : p ∈ l) (hq : q ∈ l)
    (hk : p.1 = q.1) : p = q := by
  induction l with
  | nil => cases hp
  | cons x rest ih =>
    simp only [List.map_cons, List.nodup_cons] at h
    rcases List.mem_cons.mp hp with hpx | hpr <;>
      rcases List.mem_cons.mp hq with hqx | hqr
    · rw [hpx, hqx]
    · have hm : q.1 ∈ List.map Prod.fst rest := List.mem_map_of_mem Prod.fst hqr
      rw [← hk, hpx] at hm
      exact absurd hm h.1
    · have hm : p.1 ∈ List.map Prod.fst rest := List.mem_map_of_mem Prod.fst hpr
      rw [hk, hqx] at hm
      exact absurd hm h.1
    · exact ih h.2 hpr hqr

theorem groupRows_flatten : ∀ l : List JoinRow, (groupRows l).flatten = l := by
  intro l
  induction l with
  | nil => rfl
  | cons r rs ih =>
    rw [groupRows]
    cases hg : groupRows rs with
    | nil => rw [hg] at ih; simpa using ih
    | cons g gs =>
      rw [hg] at ih
      cases g with
      | nil => simpa using ih
      | cons s g' =>
        by_cases hr : r.1 = s.1 <;> simp [hr] <;> simpa using ih

theorem mem_joinRows (bmap idx : List BlockEntry) (dt : DataMap) (r : JoinRow)
    (h : r ∈ joinRows bmap idx dt) : (r.2.1, r.2.2) ∈ dt := by
  simp only [joinRows, List.mem_flatMap] at h
  obtain ⟨ka, _, h⟩ := h
  obtain ⟨kb, _, h⟩ := h
  by_cases hk : ka.1 = kb.1
  · simp only [hk, if_true, List.mem_filterMap] at h
    obtain ⟨row, hrow, h⟩ := h
    by_cases hid : row.1 = kb.2
    · simp only [hid, if_true, Option.some_inj] at h
      rw [← h]
      show (kb.2, row.2) ∈ dt
      rw [← hid]
      exact hrow
    · simp [hid] at h
  · simp [hk] at h

theorem decorateGroup_pairIds (data : DataMap) (g : List JoinRow)
    (b : List BlockPair) (h : decorateGroup data g = some b) :
    b.map pairIds = g.map fun r => (r.1, r.2.1) := by
  induction g generalizing b with
  | nil => simp [decorateGroup] at h; simp [← h]
  | cons r rs ih =>
    rw [decorateGroup] at h
    cases haf : assocFind data r.1 <;> rw [haf] at h
    · exact absurd h (by simp)
    · cases hdg : decorateGroup data rs <;> rw [hdg] at h
      · exact absurd h (by simp)
      · simp only [Option.some_inj] at h
        simp [← h, pairIds, ih _ hdg]

theorem decorateGroups_pairIds (data : DataMap) (gs0 : List (List JoinRow))
    (gs : List (List BlockPair)) (h : decorateGroups data gs0 = some gs) :
    gs.map (List.map pairIds) = gs0.map (List.map fun r => (r.1, r.2.1)) := by
  induction gs0 generalizing gs with
  | nil => simp [decorateGroups] at h; simp [← h]
  | cons g rest ih =>
    rw [decorateGroups] at h
    cases hb : decorateGroup data g <;> rw [hb] at h
    · exact absurd h (by simp)
    · cases hbs : decorateGroups data rest <;> rw [hbs] at h
      · exact absurd h (by simp)
      · simp only [Option.some_inj] at h
        simp [← h, decorateGroup_pairIds data g _ hb, ih _ hbs]

theorem mem_of_getLast?_eq {α : Type} {l : List α} {a : α}
    (h : l.getLast? = some a) : a ∈ l := by
  obtain ⟨hne, ha⟩ := List.mem_getLast?_eq_getLast (Option.mem_def.mpr h)
  exact ha ▸ List.getLast_mem hne

theorem processPairs_a (lookup : Int → Option (Int × (Int × Fields)))
    (g : ResultGroup) :
    ∀ (popped seen : List Int) (acc : List MatchRow) (a0 a' : Option Int)
      (ms : List MatchRow),
      processPairs lookup g popped seen acc a0 = some (a', ms) →
      a' = (groupMessyId g).or a0 := by
  induction g with
  | nil =>
    intro popped seen acc a0 a' ms h
    simp only [processPairs, Option.some_inj, Prod.mk.injEq] at h
    simp [groupMessyId, ← h.1]
  | cons p rest ih =>
    intro popped seen acc a0 a' ms h
    cases hl : lookup p.1.2 with
    | none => simp [processPairs, hl] at h
    | some v =>
      obtain ⟨eid, canonical⟩ := v
      simp only [processPairs, hl] at h
      by_cases hp : p.1.2 ∈ popped
      · simp [hp] at h
      · rw [if_neg hp] at h
        rw [ih _ _ _ _ _ _ h]
        cases rest with
        | nil => simp [groupMessyId]
        | cons q rest' =>
          have hne : (q :: rest').getLast?.isSome :=
            List.getLast?_isSome.mpr (by simp)
          obtain ⟨z, hz⟩ := Option.isSome_iff_exists.mp hne
          simp [groupMessyId, List.getLast?_cons_cons, hz, Option.or]

theorem processPairs_keepFirst (lookup : Int → Option (Int × (Int × Fields)))
    (g : ResultGroup) :
    ∀ (popped seen : List Int) (acc : List MatchRow) (a0 a' : Option Int)
      (ms : List MatchRow),
      processPairs lookup g popped seen acc a0 = some (a', ms) →
      ∃ rl, resolvePairs lookup g = some rl ∧
        ms = acc ++ keepFirstPerEntity rl seen := by
  induction g with
  | nil =>
    intro popped seen acc a0 a' ms h
    simp only [processPairs, Option.some_inj, Prod.mk.injEq] at h
    exact ⟨[], rfl, by simp [keepFirstPerEntity, ← h.2]⟩
  | cons p rest ih =>
    intro popped seen acc a0 a' ms h
    cases hl : lookup p.1.2 with
    | none => simp [processPairs, hl] at h
    | some v =>
      obtain ⟨eid, canonical⟩ := v
      simp only [processPairs, hl] at h
      by_cases hp : p.1.2 ∈ popped
      · simp [hp] at h
      · rw [if_neg hp] at h
        by_cases he : eid ∈ seen
        · rw [if_pos he, if_pos he] at h
          obtain ⟨rl, hrl, hms⟩ := ih _ _ _ _ _ _ h
          refine ⟨⟨eid, p.1.2, canonical, p.2⟩ :: rl, ?_, ?_⟩
          · rw [resolvePairs, hl, hrl]
          · rw [hms, keepFirstPerEntity, if_pos he]
        · rw [if_neg he, if_neg he] at h
          obtain ⟨rl, hrl, hms⟩ := ih _ _ _ _ _ _ h
          refine ⟨⟨eid, p.1.2, canonical, p.2⟩ :: rl, ?_, ?_⟩
          · rw [resolvePairs, hl, hrl]
          · rw [hms, keepFirstPerEntity, if_neg he]
            simp

theorem keepFirstPerEntity_sublist :
    ∀ (rl : List MatchRow) (seen : List Int),
      (keepFirstPerEntity rl seen).Sublist rl := by
  intro rl
  induction rl with
  | nil => intro seen; exact List.Sublist.refl _
  | cons m rl ih =>
    intro seen
    rw [keepFirstPerEntity]
    by_cases hm : m.entityId ∈ seen
    · rw [if_pos hm]
      exact (ih seen).cons m
    · rw [if_neg hm]
      exact (ih (seen ++ [m.entityId])).cons₂ m

theorem keepFirstPerEntity_entities :
    ∀ (rl : List MatchRow) (seen : List Int),
      (∀ e ∈ (keepFirstPerEntity rl seen).map (fun m => m.entityId), e ∉ seen) ∧
      ((keepFirstPerEntity rl seen).map (fun m => m.entityId)).Nodup := by
  intro rl
  induction rl with
  | nil => intro seen; simp [keepFirstPerEntity]
  | cons m rl ih =>
    intro seen
    rw [keepFirstPerEntity]
    by_cases hm : m.entityId ∈ seen
    · rw [if_pos hm]
      exact ih seen
    · rw [if_neg hm]
      obtain ⟨ihdis, ihnd⟩ := ih (seen ++ [m.entityId])
      refine ⟨?_, ?_⟩
      · intro e he
        rw [List.map_cons] at he
        rcases List.mem_cons.mp he with rfl | hmem
        · exact hm
        · intro hes
          exact ihdis e hmem (by simp [hes])
      · rw [List.map_cons, List.nodup_cons]
        refine ⟨?_, ihnd⟩
        intro hmem
        exact ihdis _ hmem (by simp)

theorem processGroup_inv (em : List (Int × Int)) (dt : DataMap)
    (data : DataMap) (g : ResultGroup) (e : OutElem)
    (h : processGroup em dt data g = some e) :
    ∃ aid f ms, e = OutElem.matched aid f ms ∧ assocFind data aid = some f ∧
      groupMessyId g = some aid ∧
      processPairs (entityLookup em dt (canonicalIds g)) g [] [] [] none
        = some (some aid, ms) := by
  cases hp : processPairs (entityLookup em dt (canonicalIds g)) g [] [] [] none
    with
  | none => simp [processGroup, hp] at h
  | some pr =>
    obtain ⟨a', ms⟩ := pr
    cases a' with
    | none => simp [processGroup, hp] at h
    | some aid =>
      simp only [processGroup, hp] at h
      cases hf : assocFind data aid with
      | none => simp [hf] at h
      | some f =>
        simp only [hf, Option.some_inj] at h
        have ha := processPairs_a _ g _ _ _ _ _ _ hp
        rw [Option.or_none] at ha
        exact ⟨aid, f, ms, h.symm, hf, ha.symm, rfl⟩

theorem hydrateGo_spec (em : List (Int × Int)) (dt : DataMap)
    (data : DataMap) :
    ∀ (results : List ResultGroup) (seen : List Int) (qs : List (List Int))
      (os : List OutElem) (seenF : List Int),
      hydrateGo em dt data results seen = (qs, some (os, seenF)) →
      qs = results.map canonicalIds ∧
      List.Forall₂ (fun g e => processGroup em dt data g = some e) results os ∧
      seenF = os.foldl
        (fun s e => if outId e ∈ s then s else s ++ [outId e]) seen := by
  intro results
  induction results with
  | nil =>
    intro seen qs os seenF h
    simp only [hydrateGo, Prod.mk.injEq, Option.some_inj] at h
    obtain ⟨rfl, rfl, rfl⟩ := h
    exact ⟨by simp, List.Forall₂.nil, rfl⟩
  | cons g rest ih =>
    intro seen qs os seenF h
    cases hpg : processGroup em dt data g with
    | none =>
      simp only [hydrateGo, hpg, Prod.mk.injEq] at h
      exact absurd h.2 (by simp)
    | some e =>
      simp only [hydrateGo, hpg] at h
      cases hrec : hydrateGo em dt data rest
          (if outId e ∈ seen then seen else seen ++ [outId e]) with
      | mk qs' r' =>
        simp only [hrec] at h
        rw [Prod.mk.injEq] at h
        obtain ⟨hq, hr⟩ := h
        cases r' with
        | none => simp at hr
        | some pr =>
          obtain ⟨os', sF⟩ := pr
          simp only [Option.map_some', Option.some_inj, Prod.mk.injEq] at hr
          obtain ⟨hos, hsf⟩ := hr
          obtain ⟨ihq, ihf, ihs⟩ := ih _ _ _ _ hrec
          refine ⟨?_, ?_, ?_⟩
          · rw [← hq, ihq, List.map_cons]
          · rw [← hos]
            exact List.Forall₂.cons hpg ihf
          · rw [← hsf, ← hos, List.foldl_cons]
            exact ihs

theorem hydrateMatches_inv (em : List (Int × Int)) (dt : DataMap)
    (data : DataMap) (results : List ResultGroup) (qs : List (List Int))
    (out : List OutElem)
    (h : hydrateMatches em dt data results = (qs, some out)) :
    ∃ os seenF, hydrateGo em dt data results [] = (qs, some (os, seenF)) ∧
      out = os ++ (data.filter fun kv => kv.1 ∉ seenF).map
        fun kv => OutElem.passthrough kv.1 kv.2 := by
  simp only [hydrateMatches] at h
  cases hrun : hydrateGo em dt data results [] with
  | mk qs0 r0 =>
    simp only [hrun] at h
    cases r0 with
    | none => simp at h
    | some pr =>
      obtain ⟨os, sF⟩ := pr
      simp only [Option.map_some', Prod.mk.injEq, Option.some_inj] at h
      exact ⟨os, sF, by rw [h.1], h.2.symm⟩

theorem foldl_addNew (l : List Int) :
    ∀ s : List Int, l.Nodup → (∀ x ∈ l, x ∉ s) →
      l.foldl (fun s i => if i ∈ s then s else s ++ [i]) s = s ++ l := by
  induction l with
  | nil => intro s _ _; simp
  | cons i l ih =>
    intro s hnd hdis
    rw [List.foldl_cons, if_neg (hdis i (by simp))]
    rw [ih (s ++ [i]) (List.nodup_cons.mp hnd).2 ?dis]
    · simp
    case dis =>
      intro x hx
      simp only [List.mem_append, List.mem_singleton, not_or]
      exact ⟨hdis x (by simp [hx]),
        fun hxi => (List.nodup_cons.mp hnd).1 (hxi ▸ hx)⟩

theorem forall₂_outIds (em : List (Int × Int)) (dt : DataMap) (data : DataMap)
    (results : List ResultGroup) (os : List OutElem)
    (h : List.Forall₂ (fun g e => processGroup em dt data g = some e)
      results os) :
    os.map outId = results.filterMap groupMessyId := by
  induction h with
  | nil => simp
  | cons hge hrest ih =>
    rename_i g e gs es
    obtain ⟨aid, f, ms, he, _, hgid, _⟩ := processGroup_inv _ _ _ _ _ hge
    rw [List.map_cons, List.filterMap_cons_some hgid, ih, he]
    simp [outId]

theorem forall₂_outId_mem (em : List (Int × Int)) (dt : DataMap)
    (data : DataMap) (results : List ResultGroup) (os : List OutElem)
    (h : List.Forall₂ (fun g e => processGroup em dt data g = some e)
      results os) :
    ∀ e ∈ os, outId e ∈ data.map Prod.fst := by
  induction h with
  | nil => simp
  | cons hge hrest ih =>
    intro e he
    rcases List.mem_cons.mp he with rfl | hmem
    · obtain ⟨aid, f, ms, he', hf, _, _⟩ := processGroup_inv _ _ _ _ _ hge
      rw [he']
      simpa [outId] using List.mem_map_of_mem Prod.fst (assocFind_mem _ _ _ hf)
    · exact ih e hmem

theorem cover_filter_perm (s l : List Int) (hs : s.Nodup) (hl : l.Nodup)
    (hsub : ∀ x ∈ s, x ∈ l) :
    (s ++ l.filter fun x => x ∉ s).Perm l := by
  rw [List.perm_iff_count]
  intro a
  rw [List.count_append]
  by_cases ha : a ∈ s
  · rw [List.count_eq_one_of_mem hs ha,
      List.count_eq_one_of_mem hl (hsub a ha)]
    have hz : List.count a (l.filter fun x => x ∉ s) = 0 := by
      rw [List.count_eq_zero]
      intro hmem
      have hpa := List.of_mem_filter hmem
      simp only [decide_eq_true_eq] at hpa
      exact hpa ha
    rw [hz]
  · have h0 : List.count a s = 0 := List.count_eq_zero.mpr ha
    rw [h0, List.count_filter (by simpa using ha)]
    simp

theorem hydrateGo_empty_group_fails (em : List (Int × Int)) (dt : DataMap)
    (data : DataMap) :
    ∀ (results : List ResultGroup) (seen : List Int), [] ∈ results →
      (hydrateGo em dt data results seen).2 = none := by
  intro results
  induction results with
  | nil => intro seen hmem; cases hmem
  | cons g rest ih =>
    intro seen hmem
    rcases List.mem_cons.mp hmem with rfl | hmem'
    · have hpg : processGroup em dt data ([] : ResultGroup) = none := rfl
      simp [hydrateGo, hpg]
    · cases hpg : processGroup em dt data g with
      | none => simp [hydrateGo, hpg]
      | some e =>
        simp only [hydrateGo, hpg]
        cases hrec : hydrateGo em dt data rest
            (if outId e ∈ seen then seen else seen ++ [outId e]) with
        | mk qs' r' =>
          have hnone := ih
            (if outId e ∈ seen then seen else seen ++ [outId e]) hmem'
          rw [hrec] at hnone
          simp only at hnone
          simp only [hrec]
          rw [hnone]
          rfl

/-! ## Claim theorems -/

/-- C2: within one call to `blocks`, each `(messy_id, canonical_id)` pair
appears in at most one yielded group and at most once inside that group, even
when the two records share more than one signature — i.e. the flattened list
of id pairs over all yielded groups has no duplicates (assuming, as the
schema guarantees, one canonical-table row per record id). -/
theorem blocks_no_duplicate_pairs (fp : DataMap → List BlockEntry)
    (idx : List BlockEntry) (dt : DataMap) (data : DataMap)
    (gs : List (List BlockPair)) (hdt : (dt.map Prod.fst).Nodup)
    (hb : blocks fp idx dt data = some gs) :
    ((gs.map (List.map pairIds)).flatten).Nodup := by
  unfold blocks at hb
  rw [decorateGroups_pairIds data _ gs hb, ← List.map_flatten,
    groupRows_flatten]
  apply List.Nodup.map_on
  · intro x hx y hy hxy
    have hx' : x ∈ joinRows (fp data) idx dt :=
      List.mem_dedup.mp ((List.perm_insertionSort _ _).mem_iff.mp hx)
    have hy' : y ∈ joinRows (fp data) idx dt :=
      List.mem_dedup.mp ((List.perm_insertionSort _ _).mem_iff.mp hy)
    rw [Prod.mk.injEq] at hxy
    obtain ⟨h1, h2⟩ := hxy
    have hdt' :=
      assoc_key_unique dt hdt _ _ (mem_joinRows _ _ _ _ hx')
        (mem_joinRows _ _ _ _ hy') h2
    rw [Prod.mk.injEq] at hdt'
    exact Prod.ext h1 (Prod.ext h2 hdt'.2)
  · exact (List.perm_insertionSort _ _).symm.nodup (List.nodup_dedup _)

/-- C1: for every messy batch handed to `_hydrate_matches` (one raw result
group per messy id, as `many_to_n` produces), the multiset of messy ids in
the hydrated output is exactly the key set of the batch — every processed
raw result is emitted once, and every remaining batch id is emitted once as
a zero-match passthrough. -/
theorem hydrate_completeness (em : List (Int × Int)) (dt : DataMap)
    (data : DataMap) (results : List ResultGroup) (qs : List (List Int))
    (out : List OutElem)
    (h : hydrateMatches em dt data results = (qs, some out))
    (hkeys : (data.map Prod.fst).Nodup)
    (hids : (results.filterMap groupMessyId).Nodup) :
    (out.map outId).Perm (data.map Prod.fst) := by
  obtain ⟨os, seenF, hgo, hout⟩ := hydrateMatches_inv em dt data results qs out h
  obtain ⟨_, hfa, hseen⟩ := hydrateGo_spec em dt data results [] qs os seenF hgo
  have hos : os.map outId = results.filterMap groupMessyId :=
    forall₂_outIds _ _ _ _ _ hfa
  have hnd : (os.map outId).Nodup := by rw [hos]; exact hids
  have hmem : ∀ x ∈ os.map outId, x ∈ data.map Prod.fst := by
    intro x hx
    obtain ⟨e, he, rfl⟩ := List.mem_map.mp hx
    exact forall₂_outId_mem _ _ _ _ _ hfa e he
  have hseenF : seenF = os.map outId := by
    rw [hseen, ← List.foldl_map outId
      (fun s i => if i ∈ s then s else s ++ [i]) os []]
    rw [foldl_addNew (os.map outId) [] hnd (by simp)]
    simp
  have hpass :
      ((data.filter fun kv => kv.1 ∉ seenF).map
        fun kv => OutElem.passthrough kv.1 kv.2).map outId
      = (data.map Prod.fst).filter fun k => k ∉ seenF := by
    rw [List.map_map, List.filter_map]
    rfl
  rw [hout, List.map_append, hpass, hseenF]
  exact cover_filter_perm (os.map outId) (data.map Prod.fst) hnd hkeys hmem

/-- Witness for C1: on the §8 scenario (messy ids 1 and 2, one raw result
group for id 1), the hydrated output carries each batch id exactly once. -/
theorem hydrate_completeness_witness :
    hydrateMatches exEntityMap exDataTable exMessy [exGroup]
      = ([[101, 102]],
         some [OutElem.matched 1 [("name", some "acme")]
                 [⟨1, 101, (101, exFieldsA), 9⟩],
               OutElem.passthrough 2 [("name", some "xyz")]]) ∧
    (exMessy.map Prod.fst).Nodup ∧
    ([exGroup].filterMap groupMessyId).Nodup ∧
    (([OutElem.matched 1 [("name", some "acme")]
         [⟨1, 101, (101, exFieldsA), 9⟩],
       OutElem.passthrough 2 [("name", some "xyz")]].map outId).Perm
      (exMessy.map Prod.fst)) :=
  ⟨by decide, by decide, by decide,
    hydrate_completeness exEntityMap exDataTable exMessy [exGroup]
      [[101, 102]]
      [OutElem.matched 1 [("name", some "acme")]
          [⟨1, 101, (101, exFieldsA), 9⟩],
        OutElem.passthrough 2 [("name", some "xyz")]]
      (by decide) (by decide) (by decide)⟩

/-- C3: for one messy record's raw ranked result list, the inner loop of
`_hydrate_matches` keeps at most one match per distinct entity id — it is
exactly the spec's walk that keeps the first (highest-ranked) occurrence of
each entity id and drops later ones, a subsequence of the resolved ranked
list (so nothing is re-ranked), with no duplicate entity ids. -/
theorem hydrate_entity_dedup (lookup : Int → Option (Int × (Int × Fields)))
    (g : ResultGroup) (a' : Option Int) (ms : List MatchRow)
    (h : processPairs lookup g [] [] [] none = some (a', ms)) :
    ∃ rl, resolvePairs lookup g = some rl ∧
      ms = keepFirstPerEntity rl [] ∧ ms.Sublist rl ∧
      (ms.map fun m => m.entityId).Nodup := by
  obtain ⟨rl, hrl, hms⟩ := processPairs_keepFirst lookup g [] [] [] none a' ms h
  rw [List.nil_append] at hms
  refine ⟨rl, hrl, hms, ?_, ?_⟩
  · rw [hms]
    exact keepFirstPerEntity_sublist rl []
  · rw [hms]
    exact (keepFirstPerEntity_entities rl []).2

/-- Witness for C3: canonical records 101 and 102 both resolve to entity 1;
the ranked pair for 102 is dropped, the one for 101 is kept. -/
theorem hydrate_entity_dedup_witness :
    processPairs (entityLookup exEntityMap exDataTable [101, 102]) exGroup
        [] [] [] none
      = some (some 1, [⟨1, 101, (101, exFieldsA), 9⟩]) ∧
    ∃ rl, resolvePairs (entityLookup exEntityMap exDataTable [101, 102])
        exGroup = some rl ∧
      [(⟨1, 101, (101, exFieldsA), 9⟩ : MatchRow)] = keepFirstPerEntity rl [] ∧
      List.Sublist [(⟨1, 101, (101, exFieldsA), 9⟩ : MatchRow)] rl ∧
      (([(⟨1, 101, (101, exFieldsA), 9⟩ : MatchRow)]).map
        fun m => m.entityId).Nodup :=
  ⟨by decide,
    hydrate_entity_dedup (entityLookup exEntityMap exDataTable [101, 102])
      exGroup (some 1) [⟨1, 101, (101, exFieldsA), 9⟩] (by decide)⟩

/-- C7 counterexample: with two raw result groups, `_hydrate_matches` issues
two entity queries, one per group, not one bulk query covering all canonical
ids of the call — the claim's single-bulk-lookup statement is false. -/
theorem hydrate_single_bulk_lookup_false :
    ¬ singleBulkLookup exEntityMap exDataTable exMessy exResultsTwo := by
  unfold singleBulkLookup
  decide

/-- C7 amended: the canonical-to-entity resolution is performed as one bulk
lookup per raw result group (joining the canonical table with the entity
map), each covering exactly the canonical ids of that group's pairs. -/
theorem hydrate_query_per_group (em : List (Int × Int)) (dt : DataMap)
    (data : DataMap) (results : List ResultGroup) (qs : List (List Int))
    (out : List OutElem)
    (h : hydrateMatches em dt data results = (qs, some out)) :
    qs = results.map canonicalIds := by
  obtain ⟨os, seenF, hgo, _⟩ := hydrateMatches_inv em dt data results qs out h
  exact (hydrateGo_spec em dt data results [] qs os seenF hgo).1

/-- Witness for C7's amended claim: the two-group run issues the query trace
[[101], [102]], one query per group. -/
theorem hydrate_query_per_group_witness :
    hydrateMatches exEntityMap exDataTable exMessy exResultsTwo
      = ([[101], [102]],
         some [OutElem.matched 1 [("name", some "acme")]
                 [⟨1, 101, (101, exFieldsA), 9⟩],
               OutElem.matched 2 [("name", some "xyz")]
                 [⟨1, 102, (102, exFieldsB), 8⟩]]) ∧
    [[(101 : Int)], [102]] = exResultsTwo.map canonicalIds :=
  ⟨by decide,
    hydrate_query_per_group exEntityMap exDataTable exMessy exResultsTwo
      [[101], [102]]
      [OutElem.matched 1 [("name", some "acme")]
          [⟨1, 101, (101, exFieldsA), 9⟩],
        OutElem.matched 2 [("name", some "xyz")]
          [⟨1, 102, (102, exFieldsB), 8⟩]]
      (by decide)⟩

/-- C8: the search output has no uniform tuple shape — each messy record
with a raw result group is emitted as the 2-tuple
`((messy_id, messy_fields), matches)` while each record with zero raw
results is emitted as the flat 3-tuple `(messy_id, messy_fields, ())`. -/
theorem hydrate_output_shapes (em : List (Int × Int)) (dt : DataMap)
    (data : DataMap) (results : List ResultGroup) (qs : List (List Int))
    (out : List OutElem)
    (h : hydrateMatches em dt data results = (qs, some out)) :
    ∃ ms ps, out = ms ++ ps ∧
      List.Forall₂
        (fun g e => processGroup em dt data g = some e ∧ tupleArity e = 2)
        results ms ∧
      ∀ e ∈ ps, (∃ k f, e = OutElem.passthrough k f) ∧ tupleArity e = 3 := by
  obtain ⟨os, seenF, hgo, hout⟩ := hydrateMatches_inv em dt data results qs out h
  obtain ⟨_, hfa, _⟩ := hydrateGo_spec em dt data results [] qs os seenF hgo
  refine ⟨os, _, hout, ?_, ?_⟩
  · refine hfa.imp ?_
    intro g e hge
    obtain ⟨aid, f, ms', he, _, _, _⟩ := processGroup_inv _ _ _ _ _ hge
    exact ⟨hge, by rw [he]; rfl⟩
  · intro e he
    obtain ⟨kv, _, rfl⟩ := List.mem_map.mp he
    exact ⟨⟨kv.1, kv.2, rfl⟩, rfl⟩

/-- Witness for C8: one matched 2-tuple for messy id 1, one flat 3-tuple
passthrough for messy id 2, in the same output sequence. -/
theorem hydrate_output_shapes_witness :
    hydrateMatches exEntityMap exDataTable exMessy [exGroup]
      = ([[101, 102]],
         some [OutElem.matched 1 [("name", some "acme")]
                 [⟨1, 101, (101, exFieldsA), 9⟩],
               OutElem.passthrough 2 [("name", some "xyz")]]) ∧
    ∃ ms ps,
      [OutElem.matched 1 [("name", some "acme")]
          [⟨1, 101, (101, exFieldsA), 9⟩],
        OutElem.passthrough 2 [("name", some "xyz")]] = ms ++ ps ∧
      List.Forall₂
        (fun g e => processGroup exEntityMap exDataTable exMessy g = some e ∧
          tupleArity e = 2) [exGroup] ms ∧
      ∀ e ∈ ps, (∃ k f, e = OutElem.passthrough k f) ∧ tupleArity e = 3 :=
  ⟨by decide,
    hydrate_output_shapes exEntityMap exDataTable exMessy [exGroup]
      [[101, 102]]
      [OutElem.matched 1 [("name", some "acme")]
          [⟨1, 101, (101, exFieldsA), 9⟩],
        OutElem.passthrough 2 [("name", some "xyz")]]
      (by decide)⟩

/-- C10: `_hydrate_matches` is only well-defined when every raw result group
has at least one pair.  Under the success of a call, every group is nonempty
and the messy id of its emitted tuple is the id its pairs share (the
`data[None]` lookup is unreachable); a raw result with zero pairs instead
aborts the whole call on the `data[None]` lookup, emitting nothing for it. -/
theorem hydrate_group_preconditions (em : List (Int × Int)) (dt : DataMap) :
    (∀ (data : DataMap) (results : List ResultGroup) (qs : List (List Int))
        (out : List OutElem),
        hydrateMatches em dt data results = (qs, some out) →
        ∃ ms ps, out = ms ++ ps ∧
          List.Forall₂
            (fun g e => g ≠ [] ∧ groupMessyId g = some (outId e) ∧
              ∀ m : Int, (∀ p ∈ g, p.1.1 = m) → outId e = m)
            results ms) ∧
    (∀ (data : DataMap) (results : List ResultGroup), [] ∈ results →
        (hydrateMatches em dt data results).2 = none) := by
  constructor
  · intro data results qs out h
    obtain ⟨os, seenF, hgo, hout⟩ :=
      hydrateMatches_inv em dt data results qs out h
    obtain ⟨_, hfa, _⟩ := hydrateGo_spec em dt data results [] qs os seenF hgo
    refine ⟨os, _, hout, hfa.imp ?_⟩
    intro g e hge
    obtain ⟨aid, f, ms', he, _, hgid, _⟩ := processGroup_inv _ _ _ _ _ hge
    have hne : g ≠ [] := by
      intro hg
      rw [hg] at hgid
      simp [groupMessyId] at hgid
    have hide : outId e = aid := by rw [he]; rfl
    refine ⟨hne, by rw [hide]; exact hgid, ?_⟩
    intro m hm
    obtain ⟨p, hp⟩ := Option.map_eq_some'.mp hgid
    have hpg : p ∈ g := mem_of_getLast?_eq hp.1
    rw [hide, ← hp.2, hm p hpg]
  · intro data results hmem
    simp only [hydrateMatches]
    cases hrun : hydrateGo em dt data results [] with
    | mk qs0 r0 =>
      have hnone := hydrateGo_empty_group_fails em dt data results [] hmem
      rw [hrun] at hnone
      simp only at hnone
      simp only [hrun, hnone]
      rfl

/-- Witness for C10: the nonempty group of the §8 scenario yields its shared
messy id 1; a result list containing an empty group makes the call fail. -/
theorem hydrate_group_preconditions_witness :
    (∃ ms ps,
      [OutElem.matched 1 [("name", some "acme")]
          [⟨1, 101, (101, exFieldsA), 9⟩],
        OutElem.passthrough 2 [("name", some "xyz")]] = ms ++ ps ∧
      List.Forall₂
        (fun g e => g ≠ [] ∧ groupMessyId g = some (outId e) ∧
          ∀ m : Int, (∀ p ∈ g, p.1.1 = m) → outId e = m)
        [exGroup] ms) ∧
    (hydrateMatches exEntityMap exDataTable exMessy [[]]).2 = none :=
  ⟨(hydrate_group_preconditions exEntityMap exDataTable).1 exMessy [exGroup]
      [[101, 102]]
      [OutElem.matched 1 [("name", some "acme")]
          [⟨1, 101, (101, exFieldsA), 9⟩],
        OutElem.passthrough 2 [("name", some "xyz")]]
      (by decide),
    (hydrate_group_preconditions exEntityMap exDataTable).2 exMessy [[]]
      (by decide)⟩

/-- Witness for C2: messy record 1 shares two signatures with canonical
record 101, yet the blocks output contains the pair (1, 101) only once. -/
theorem blocks_no_duplicate_pairs_witness :
    (exDataTable.map Prod.fst).Nodup ∧
    blocks exFp exIdx exDataTable exMessy =
      some [[((1, [("name", some "acme")]), (102, exFieldsB)),
             ((1, [("name", some "acme")]), (101, exFieldsA))]] ∧
    (([[((1, [("name", some "acme")]), (102, exFieldsB)),
        ((1, [("name", some "acme")]), (101, exFieldsA))]].map
          (List.map pairIds)).flatten).Nodup :=
  ⟨by decide, by decide,
    blocks_no_duplicate_pairs exFp exIdx exDataTable exMessy _ (by decide)
      (by decide)⟩

theorem dictInsert_append (d : DataMap) (k : Int) (v : Fields)
    (hk : k ∉ d.map Prod.fst) : dictInsert d k v = d ++ [(k, v)] := by
  unfold dictInsert
  rw [if_neg]
  intro hany
  obtain ⟨kv, hkv, hkeq⟩ := List.any_eq_true.mp hany
  simp only [decide_eq_true_eq] at hkeq
  exact hk (hkeq ▸ List.mem_map_of_mem Prod.fst hkv)

theorem toFinset_replaceInto (s : List BlockEntry) (p : BlockEntry) :
    (replaceInto s p).toFinset = insert p s.toFinset := by
  unfold replaceInto
  by_cases hp : p ∈ s
  · rw [if_pos hp, List.toFinset_append]
    ext a
    by_cases ha : a = p
    · simp [ha, hp]
    · simp [ha, List.mem_erase_of_ne ha]
  · rw [if_neg hp, List.toFinset_append]
    ext a
    by_cases ha : a = p <;> simp [ha]

theorem toFinset_insertAll (s ps : List BlockEntry) :
    (insertAll s ps).toFinset = s.toFinset ∪ ps.toFinset := by
  induction ps generalizing s with
  | nil => simp [insertAll]
  | cons p ps ih =>
    show (insertAll (replaceInto s p) ps).toFinset = _
    rw [ih, toFinset_replaceInto]
    ext a
    simp only [Finset.mem_union, Finset.mem_insert, List.mem_toFinset,
      List.mem_cons]
    tauto

theorem readDataGo_spec (identifier : String) (c : Nat) (hc : 0 < c) :
    ∀ (rows : List CsvRow) (dataD : DataMap) (chunks : List DataMap),
      dataD.length < c →
      (dataD.map Prod.fst ++ rows.filterMap (rowIdOf identifier)).Nodup →
      readDataGo identifier c rows dataD = some chunks →
      chunks.length = (dataD.length + rows.length) / c ∧
      (∀ ch ∈ chunks, ch.length = c) ∧
      chunks.flatten =
        (dataD ++ rows.filterMap (processedRow identifier)).take
          (c * ((dataD.length + rows.length) / c)) := by
  intro rows
  induction rows with
  | nil =>
    intro dataD chunks hlen hnd h
    simp only [readDataGo, Option.some_inj] at h
    subst h
    refine ⟨by simp [Nat.div_eq_of_lt hlen], by simp, ?_⟩
    simp [Nat.div_eq_of_lt hlen]
  | cons row rest ih =>
    intro dataD chunks hlen hnd h
    cases hrid : rowIdOf identifier row with
    | none => simp [readDataGo, hrid] at h
    | some rid =>
      simp only [readDataGo, hrid] at h
      rw [List.filterMap_cons_some hrid] at hnd
      have hknotin : rid ∉ dataD.map Prod.fst := by
        intro hin
        have hdisj := (List.nodup_append.mp hnd).2.2
        exact hdisj hin (by simp)
      rw [dictInsert_append dataD rid (cleanRow row) hknotin] at h
      have hproc : processedRow identifier row = some (rid, cleanRow row) := by
        simp [processedRow, hrid]
      have hlen1 : (dataD ++ [(rid, cleanRow row)]).length
          = dataD.length + 1 := by simp
      have hnd' : ((dataD ++ [(rid, cleanRow row)]).map Prod.fst
          ++ rest.filterMap (rowIdOf identifier)).Nodup := by
        rw [List.map_append]
        simpa [List.append_assoc] using hnd
      by_cases hfull : (dataD ++ [(rid, cleanRow row)]).length = c
      · rw [if_pos hfull] at h
        obtain ⟨chunks', hrec, hchunks⟩ := Option.map_eq_some'.mp h
        have hndrest : ((([] : DataMap).map Prod.fst)
            ++ rest.filterMap (rowIdOf identifier)).Nodup := by
          simp only [List.map_nil, List.nil_append]
          exact (List.nodup_append.mp hnd').2.1
        obtain ⟨ih1, ih2, ih3⟩ := ih [] chunks' (by simpa using hc) hndrest hrec
        have hdiv : (dataD.length + (row :: rest).length) / c
            = rest.length / c + 1 := by
          have : dataD.length + (row :: rest).length = rest.length + c := by
            rw [← hfull]
            simp
            omega
          rw [this, Nat.add_div_right _ hc]
        refine ⟨?_, ?_, ?_⟩
        · rw [← hchunks, hdiv]
          simp [ih1]
        · intro ch hch
          rw [← hchunks] at hch
          rcases List.mem_cons.mp hch with rfl | hmem
          · exact hfull
          · exact ih2 ch hmem
        · rw [← hchunks, List.flatten_cons, hdiv]
          rw [List.filterMap_cons_some hproc]
          have hresh : (dataD ++ (rid, cleanRow row)
              :: rest.filterMap (processedRow identifier))
              = (dataD ++ [(rid, cleanRow row)])
                ++ rest.filterMap (processedRow identifier) := by
            simp
          rw [hresh]
          have hmul : c * (rest.length / c + 1)
              = (dataD ++ [(rid, cleanRow row)]).length
                + c * (rest.length / c) := by
            rw [hfull]
            ring
          rw [hmul, List.take_append]
          rw [ih3]
          simp
      · rw [if_neg hfull] at h
        have hlt : (dataD ++ [(rid, cleanRow row)]).length < c := by
          rw [hlen1]
          rw [hlen1] at hfull
          omega
        obtain ⟨ih1, ih2, ih3⟩ := ih (dataD ++ [(rid, cleanRow row)])
          chunks hlt hnd' h
        have harith : (dataD ++ [(rid, cleanRow row)]).length + rest.length
            = dataD.length + (row :: rest).length := by
          rw [hlen1]
          simp
          omega
        refine ⟨?_, ih2, ?_⟩
        · rw [ih1, harith]
        · rw [ih3, harith, List.filterMap_cons_some hproc]
          have hresh : (dataD ++ [(rid, cleanRow row)])
              ++ rest.filterMap (processedRow identifier)
              = dataD ++ (rid, cleanRow row)
                :: rest.filterMap (processedRow identifier) := by
            simp
          rw [hresh]

/-- C4 (refuted, code bug): the rebuild of `indexed_records` is not atomic
for readers.  Immediately after the first statement the old table is gone
from every committed state (the `DROP TABLE` auto-commits under Python
sqlite3's implicit-transaction rules), a reader between the `CREATE TABLE`
auto-commit and the final commit sees an empty index, and a crash anywhere
in that window leaves the dropped/empty state behind; only the last trace
entry carries the rebuilt `blockIndex` contents. -/
theorem blockIndex_rebuild_not_atomic :
    blockIndexVisibleTrace (some [("acme", 101)]) [("ac", 101)] =
      [some [("acme", 101)], none, none, some [], some [], some [], some [],
        some (blockIndex (some [("acme", 101)]) true [("ac", 101)])] ∧
    none ∈ (blockIndexVisibleTrace (some [("acme", 101)]) [("ac", 101)]).drop 1 ∧
    some [("acme", 101)] ∉
      (blockIndexVisibleTrace (some [("acme", 101)]) [("ac", 101)]).drop 1 := by
  refine ⟨by decide, by decide, by decide⟩

/-- C5 (refuted, code bug): a fully consumed `blocks` generator closes its
cursor, rolls the transaction back and closes the connection, but when the
caller abandons the lazy sequence after any proper subset of the groups,
none of these cleanup events occur — the cleanup statements sit after the
loop with no try/finally. -/
theorem blocks_abandoned_skips_cleanup (j k : Nat) :
    (BlocksEvent.closeCursor ∈ blocksEventsRun (j + 1 + k) ∧
      BlocksEvent.rollbackTxn ∈ blocksEventsRun (j + 1 + k) ∧
      BlocksEvent.closeConnection ∈ blocksEventsRun (j + 1 + k)) ∧
    (BlocksEvent.closeCursor ∉ blocksEventsAbandoned j ∧
      BlocksEvent.rollbackTxn ∉ blocksEventsAbandoned j ∧
      BlocksEvent.closeConnection ∉ blocksEventsAbandoned j) := by
  refine ⟨⟨?_, ?_, ?_⟩, ?_, ?_, ?_⟩ <;>
    simp [blocksEventsRun, blocksEventsAbandoned]

/-- C6: rebuilding the index twice from the same canonical dataset yields
identical Candidate Store contents — the drop makes the second rebuild
literally equal to the first regardless of the prior store, and re-inserting
the same `(signature, record_id)` rows into the rebuilt store is idempotent
as a set under the REPLACE semantics of the uniqueness constraint. -/
theorem rebuild_idempotent (fp : DataMap → List BlockEntry) (d : DataMap)
    (store store' : Option (List BlockEntry)) :
    blockIndex store' true (fp d) = blockIndex store true (fp d) ∧
    (insertAll (blockIndex store true (fp d)) (fp d)).toFinset
      = (blockIndex store true (fp d)).toFinset := by
  refine ⟨rfl, ?_⟩
  show (insertAll (insertAll [] (fp d)) (fp d)).toFinset
    = (insertAll [] (fp d)).toFinset
  rw [toFinset_insertAll, toFinset_insertAll]
  simp

/-- C9: readData yields exactly `n / c` chunks of exactly `c` records for an
`n`-row CSV with chunk size `c > 0` (row ids distinct); the yielded records
are precisely the first `c * (n / c)` processed rows, so the trailing
`n mod c` rows after the last full chunk are never yielded. -/
theorem readData_drops_tail (rows : List CsvRow) (identifier : String)
    (c : Nat) (chunks : List DataMap) (hc : 0 < c)
    (hids : (rows.filterMap (rowIdOf identifier)).Nodup)
    (h : readData rows identifier c = some chunks) :
    chunks.length = rows.length / c ∧
    (∀ ch ∈ chunks, ch.length = c) ∧
    chunks.flatten =
      (rows.filterMap (processedRow identifier)).take
        (c * (rows.length / c)) := by
  have hspec := readDataGo_spec identifier c hc rows [] chunks
    (by simpa using hc) (by simpa using hids) h
  simpa using hspec

/-- Witness for C9: three CSV rows with chunk size 2 yield one chunk of two
records; the third row is dropped. -/
theorem readData_drops_tail_witness :
    (0 : Nat) < 2 ∧
    (([[("id", "1"), ("name", "A")], [("id", "2"), ("name", "B")],
        [("id", "3"), ("name", "C")]].filterMap (rowIdOf "id")).Nodup) ∧
    readData [[("id", "1"), ("name", "A")], [("id", "2"), ("name", "B")],
        [("id", "3"), ("name", "C")]] "id" 2
      = some [[(1, [("id", some "1"), ("name", some "a")]),
               (2, [("id", some "2"), ("name", some "b")])]] ∧
    ([[(1, [("id", some "1"), ("name", some "a")]),
       (2, [("id", some "2"), ("name", some "b")])]] : List DataMap).length
      = 3 / 2 ∧
    ([[(1, [("id", some "1"), ("name", some "a")]),
       (2, [("id", some "2"), ("name", some "b")])]] : List DataMap).flatten
      = (([[("id", "1"), ("name", "A")], [("id", "2"), ("name", "B")],
            [("id", "3"), ("name", "C")]].filterMap
          (processedRow "id")).take (2 * (3 / 2))) :=
  ⟨by decide, by decide, by decide,
    (readData_drops_tail [[("id", "1"), ("name", "A")],
        [("id", "2"), ("name", "B")], [("id", "3"), ("name", "C")]] "id" 2
        [[(1, [("id", some "1"), ("name", some "a")]),
          (2, [("id", some "2"), ("name", some "b")])]]
        (by decide) (by decide) (by decide)).1,
    (readData_drops_tail [[("id", "1"), ("name", "A")],
        [("id", "2"), ("name", "B")], [("id", "3"), ("name", "C")]] "id" 2
        [[(1, [("id", some "1"), ("name", some "a")]),
          (2, [("id", some "2"), ("name", some "b")])]]
        (by decide) (by decide) (by decide)).2.2⟩

end EmployerLinks
